import Mathlib

/-!
Verification of the Azure DevOps-style query-builder component
(azure-devops-query-builder-angular.component.ts).

The component's data model and operations are embedded shallowly:

* TypeScript string-literal union types become Lean inductives
  (FieldType, Logic).
* The `Clause | Group` union stored in a Group's `clauses` array becomes
  the tagged union `Node`; property access that is legal on both variants
  (`.id`) is a total function, property access that exists on only one
  variant yields `undefined` on the other (JS semantics), and calling an
  array method on an `undefined` property (a TypeError) is modelled by
  `Option`: `none` is a thrown exception.
* `uid` builds an id from a fixed prefix and a random suffix
  (`Math.random().toString(36).substr(2, 9)`); the suffix is an
  arbitrary `String` parameter, so every theorem quantifying over it
  covers every possible random outcome.
* Methods that mutate a structure in place become functions returning
  the updated value; the serializer, which mutates nothing, additionally
  gets a state-passing variant `serializeGroupSt` that threads the tree
  through, so that "the tree is not mutated" is a provable statement.
* Serialized output is a JS value tree (`JDoc`) that records object keys
  as strings in insertion order, since the serialized document is the
  component's externally consumed artifact.
-/

namespace QueryBuilder

/-- The `FieldType` union: 'string' | 'number' | 'date' | 'boolean' | 'tags'. -/
inductive FieldType where
  | string
  | number
  | date
  | boolean
  | tags
deriving DecidableEq

/-- The `'AND' | 'OR'` union used for `Group.logic`. -/
inductive Logic where
  | AND
  | OR
deriving DecidableEq

/-- The JS values the component stores in `Clause.value` and in serialized
documents: strings, booleans, and `undefined` (an unset optional). -/
inductive JSVal where
  | undefined
  | str (s : String)
  | jsBool (b : Bool)
deriving DecidableEq

/-- The `Field` interface: `{ key, label, type, operators }`. -/
structure Field where
  key : String
  label : String
  type : FieldType
  operators : List String
deriving DecidableEq

/-- The `Clause` interface: `{ id, field?, operator?, value? }`.
`value` is initialized to `''` by the factory, so it is modelled as a
`JSVal` rather than an `Option`. -/
structure Clause where
  id : String
  field : Option String
  operator : Option String
  value : JSVal
deriving DecidableEq

mutual
/-- A child of a Group: the TypeScript union `Clause | Group`. -/
inductive Node where
  | clauseNode (c : Clause)
  | groupNode (g : Group)

/-- The `Group` interface: `{ id, logic, clauses: Array<Clause | Group> }`. -/
inductive Group where
  | mk (id : String) (logic : Logic) (clauses : List Node)
end

def Group.id : Group → String
  | .mk i _ _ => i

def Group.logic : Group → Logic
  | .mk _ l _ => l

def Group.clauses : Group → List Node
  | .mk _ _ cs => cs

/-- JS `String.prototype.startsWith`, on the character lists. -/
def strStartsWith (s p : String) : Bool :=
  p.data.isPrefixOf s.data

/-- `uid`: `prefix + Math.random().toString(36).substr(2, 9)`.
The random suffix is passed in as `rand`. -/
def uid (pre : String) (rand : String) : String :=
  pre ++ rand

/-- `DEFAULT_FIELDS` verbatim. -/
def DEFAULT_FIELDS : List Field :=
  [ { key := "Title", label := "Title", type := .string,
      operators := ["contains", "equals", "not equals", "startsWith"] },
    { key := "State", label := "State", type := .string,
      operators := ["equals", "not equals"] },
    { key := "AssignedTo", label := "Assigned To", type := .string,
      operators := ["equals", "not equals"] },
    { key := "Priority", label := "Priority", type := .number,
      operators := ["=", "!=", "<", ">"] },
    { key := "CreatedDate", label := "Created Date", type := .date,
      operators := ["before", "after", "on"] },
    { key := "IsActive", label := "Is Active", type := .boolean,
      operators := ["is", "is not"] } ]

/-- The component's `fields` property, initialized to `DEFAULT_FIELDS`
and never reassigned. -/
def fields : List Field := DEFAULT_FIELDS

/-- `newGroup()`: `{ id: uid('g_'), logic: 'AND', clauses: [] }`. -/
def newGroup (rand : String) : Group :=
  .mk (uid "g_" rand) .AND []

/-- `newClause()`: `{ id: uid('c_'), field: undefined, operator: undefined, value: '' }`. -/
def newClause (rand : String) : Clause :=
  { id := uid "c_" rand, field := none, operator := none, value := .str "" }

/-- `addClause(group)`: `group.clauses.push(this.newClause())`. -/
def addClause (group : Group) (rand : String) : Group :=
  .mk group.id group.logic (group.clauses ++ [.clauseNode (newClause rand)])

/-- `removeClause(group, index)`: `group.clauses.splice(index, 1)`.
The component only ever calls this with the non-negative `*ngFor` index
of an existing child, where `splice(index, 1)` and `eraseIdx` agree. -/
def removeClause (group : Group) (index : Nat) : Group :=
  .mk group.id group.logic (group.clauses.eraseIdx index)

/-- `addGroup(parent)`: `parent.clauses.push(this.newGroup())`. -/
def addGroup (parent : Group) (rand : String) : Group :=
  .mk parent.id parent.logic (parent.clauses ++ [.groupNode (newGroup rand)])

/-- `.id` read on a `Clause | Group` value: both variants carry `id`. -/
def idOf : Node → String
  | .clauseNode c => c.id
  | .groupNode g => g.id

/-- `isClause(item)`: `(item as Clause).id?.startsWith('c_')`. -/
def isClause (item : Node) : Bool :=
  strStartsWith (idOf item) "c_"

/-- `onFieldChange(clause)`: sets `clause.operator = undefined; clause.value = ''`. -/
def onFieldChange (clause : Clause) : Clause :=
  { clause with operator := none, value := .str "" }

/-- The field `<select>` binding: `[(ngModel)]` writes the chosen key to
`clause.field`, then `(ngModelChange)` runs `onFieldChange(clause)`.
This is the component's complete change-the-field action (the spec's
`setClauseField`). -/
def setClauseField (clause : Clause) (newFieldKey : Option String) : Clause :=
  onFieldChange { clause with field := newFieldKey }

/-- `operatorsForClause(clause)`: `this.fields.find(x => x.key === clause.field)`,
returning its `operators` or `[]`. -/
def operatorsForClause (clause : Clause) : List String :=
  match fields.find? (fun x => some x.key == clause.field) with
  | some f => f.operators
  | none => []

/-- `valueInputType(clause)`: the found field's `type`, else `'string'`. -/
def valueInputType (clause : Clause) : FieldType :=
  match fields.find? (fun x => some x.key == clause.field) with
  | some f => f.type
  | none => .string

/-- `constructor()`: `rootGroup = this.newGroup()` then `this.addClause(this.rootGroup)`. -/
def constructorRoot (grand crand : String) : Group :=
  addClause (newGroup grand) crand

/-- `clear()`: `this.rootGroup = this.newGroup(); this.addClause(this.rootGroup)`.
The previous root is discarded wholesale. -/
def clear (_oldRoot : Group) (grand crand : String) : Group :=
  addClause (newGroup grand) crand

mutual
/-- A serialized JS value: a primitive, an array, or an object whose
string keys are recorded in insertion order. -/
inductive JDoc where
  | prim (v : JSVal)
  | arr (elems : JArr)
  | obj (entries : JObj)

/-- The element list of a serialized JS array. -/
inductive JArr where
  | anil
  | acons (hd : JDoc) (tl : JArr)

/-- The key/value entry list of a serialized JS object. -/
inductive JObj where
  | onil
  | ocons (key : String) (val : JDoc) (tl : JObj)
end

def JArr.toList : JArr → List JDoc
  | .anil => []
  | .acons d ds => d :: ds.toList

/-- A JS string-or-undefined value (an optional property read). -/
def optVal : Option String → JSVal
  | none => .undefined
  | some s => .str s

/-- The string a `Logic` value denotes ('AND' or 'OR'). -/
def logicStr : Logic → String
  | .AND => "AND"
  | .OR => "OR"

/-- `item.field` read on a `Clause | Group` value: `undefined` on a Group. -/
def fieldProp : Node → JSVal
  | .clauseNode c => optVal c.field
  | .groupNode _ => .undefined

/-- `item.operator` read on a `Clause | Group` value. -/
def operatorProp : Node → JSVal
  | .clauseNode c => optVal c.operator
  | .groupNode _ => .undefined

/-- `item.value` read on a `Clause | Group` value. -/
def valueProp : Node → JSVal
  | .clauseNode c => c.value
  | .groupNode _ => .undefined

mutual
/-- The callback of `serializeGroup`'s `map`: a clause-classified item
becomes `{ type: 'clause', field, operator, value }`; otherwise the item
becomes `{ type: 'group', logic, group: serializeGroup(item) }`.  An item
classified as a group that is structurally a Clause has no `clauses`
array, so the recursive call throws (`none`). -/
def serializeItem (item : Node) : Option JDoc :=
  if isClause item then
    some (.obj (.ocons "type" (.prim (.str "clause"))
          (.ocons "field" (.prim (fieldProp item))
          (.ocons "operator" (.prim (operatorProp item))
          (.ocons "value" (.prim (valueProp item)) .onil)))))
  else
    match item with
    | .groupNode g =>
        (serializeGroup g).map (fun d =>
          .obj (.ocons "type" (.prim (.str "group"))
            (.ocons "logic" (.prim (.str (logicStr g.logic)))
            (.ocons "group" d .onil))))
    | .clauseNode _ => none

/-- `serializeGroup(group)`: `{ logic: group.logic, parts: group.clauses.map(...) }`. -/
def serializeGroup : Group → Option JDoc
  | .mk _ l cs =>
      (serializeParts cs).map (fun parts =>
        .obj (.ocons "logic" (.prim (.str (logicStr l)))
          (.ocons "parts" (.arr parts) .onil)))

/-- `group.clauses.map(item => ...)`, evaluated left to right; a thrown
exception aborts the whole call. -/
def serializeParts : List Node → Option JArr
  | [] => some .anil
  | item :: rest => do
      let d ← serializeItem item
      let ds ← serializeParts rest
      pure (.acons d ds)
end

mutual
/-- `serializeItem` with the item it read threaded through as state:
the callback only reads properties, so the returned item is rebuilt from
the recursive results unchanged. -/
def serializeItemSt (item : Node) : Node × Option JDoc :=
  if isClause item then
    (item, some (.obj (.ocons "type" (.prim (.str "clause"))
          (.ocons "field" (.prim (fieldProp item))
          (.ocons "operator" (.prim (operatorProp item))
          (.ocons "value" (.prim (valueProp item)) .onil))))))
  else
    match item with
    | .groupNode g =>
        let r := serializeGroupSt g
        (.groupNode r.1,
          r.2.map (fun d =>
            .obj (.ocons "type" (.prim (.str "group"))
              (.ocons "logic" (.prim (.str (logicStr g.logic)))
              (.ocons "group" d .onil)))))
    | .clauseNode c => (.clauseNode c, none)

/-- `serializeGroup` with its argument threaded through as state. -/
def serializeGroupSt : Group → Group × Option JDoc
  | .mk i l cs =>
      let r := serializePartsSt cs
      (.mk i l r.1,
        r.2.map (fun parts =>
          .obj (.ocons "logic" (.prim (.str (logicStr l)))
            (.ocons "parts" (.arr parts) .onil))))

/-- The mapped children with their serialization, state threaded through. -/
def serializePartsSt : List Node → List Node × Option JArr
  | [] => ([], some .anil)
  | item :: rest =>
      let r := serializeItemSt item
      let rs := serializePartsSt rest
      (r.1 :: rs.1, do
        let d ← r.2
        let ds ← rs.2
        pure (.acons d ds))
end

mutual
/-- `removeGroup(groupToRemove, parentGroup)`: find a direct child with
`!isClause(c) && c.id === groupToRemove.id`; if found, splice it out and
return; otherwise recurse into every non-clause child.  Recursing into a
structural Clause throws (`none`), since it has no `clauses` array. -/
def removeGroup (groupToRemove : Group) : Group → Option Group
  | .mk i l cs =>
      match cs.findIdx? (fun c => !isClause c && idOf c == groupToRemove.id) with
      | some idx => some (.mk i l (cs.eraseIdx idx))
      | none => (removeGroupList groupToRemove cs).map (fun cs2 => .mk i l cs2)

/-- The `for (const item of parentGroup.clauses)` loop of `removeGroup`:
every non-clause item is recursed into (no early exit); recursing into a
structural Clause throws, since it has no `clauses` array. -/
def removeGroupList (groupToRemove : Group) : List Node → Option (List Node)
  | [] => some []
  | .clauseNode c :: rest =>
      if isClause (.clauseNode c) then
        (removeGroupList groupToRemove rest).map (fun r => .clauseNode c :: r)
      else none
  | .groupNode g :: rest =>
      if isClause (.groupNode g) then
        (removeGroupList groupToRemove rest).map (fun r => .groupNode g :: r)
      else do
        let g2 ← removeGroup groupToRemove g
        let rest2 ← removeGroupList groupToRemove rest
        pure (.groupNode g2 :: rest2)
end

/-- Structural variant test: is this child a Group value? -/
def isGroupNode : Node → Bool
  | .clauseNode _ => false
  | .groupNode _ => true

mutual
/-- Modelled from the spec (§4.3 `removeGroup`): depth-first search for
the first child Group whose id equals the target id, visiting a group's
direct children before descending into nested groups; the first match is
spliced out and the search stops.  Returns the updated group and whether
a match was removed. -/
def removeFirst (tid : String) : Group → Group × Bool
  | .mk i l cs =>
      match cs.findIdx? (fun c => isGroupNode c && idOf c == tid) with
      | some idx => (.mk i l (cs.eraseIdx idx), true)
      | none =>
          let r := removeFirstList tid cs
          (.mk i l r.1, r.2)

/-- Modelled from the spec: descend into nested groups in order, stopping
at the first removal. -/
def removeFirstList (tid : String) : List Node → List Node × Bool
  | [] => ([], false)
  | .clauseNode c :: rest =>
      let r := removeFirstList tid rest
      (.clauseNode c :: r.1, r.2)
  | .groupNode g :: rest =>
      let r := removeFirst tid g
      if r.2 then (.groupNode r.1 :: rest, true)
      else
        let rs := removeFirstList tid rest
        (.groupNode r.1 :: rs.1, rs.2)
end

mutual
/-- Well-formed node: ids carry the factory's variant tag ('c_' for a
Clause, 'g_' for a Group), recursively. -/
def wfNode : Node → Bool
  | .clauseNode c => strStartsWith c.id "c_"
  | .groupNode g => wfGroup g

/-- Well-formed group: its id carries the 'g_' tag and all descendants
are well-formed. -/
def wfGroup : Group → Bool
  | .mk i _ cs => strStartsWith i "g_" && wfList cs

/-- Well-formed child list. -/
def wfList : List Node → Bool
  | [] => true
  | n :: ns => wfNode n && wfList ns
end

mutual
/-- All ids in a node's subtree. -/
def idsNode : Node → List String
  | .clauseNode c => [c.id]
  | .groupNode g => allIds g

/-- All ids in a group's subtree, the group's own id first. -/
def allIds : Group → List String
  | .mk i _ cs => i :: idsList cs

/-- All ids in a child list's subtrees. -/
def idsList : List Node → List String
  | [] => []
  | n :: ns => idsNode n ++ idsList ns
end

mutual
/-- Ids of the Group values in a node's subtree. -/
def gidsNode : Node → List String
  | .clauseNode _ => []
  | .groupNode g => gidsGroup g

/-- Ids of the Group values in a group's subtree, its own id included. -/
def gidsGroup : Group → List String
  | .mk i _ cs => i :: gidsList cs

/-- Ids of the Group values in a child list's subtrees. -/
def gidsList : List Node → List String
  | [] => []
  | n :: ns => gidsNode n ++ gidsList ns
end

/-- The scenario tree of the spec's §8 walk-through: a fresh root, one
added clause, one added group ("r", "a", "b" standing for the three
random id suffixes drawn). -/
def scenarioTree : Group :=
  addGroup (addClause (newGroup "r") "a") "b"

/-- The document the spec claims for the scenario: part discriminants
keyed `kind`. -/
def scenarioDocKindKey : JDoc :=
  .obj (.ocons "logic" (.prim (.str "AND"))
    (.ocons "parts" (.arr
      (.acons (.obj (.ocons "kind" (.prim (.str "clause"))
          (.ocons "field" (.prim .undefined)
          (.ocons "operator" (.prim .undefined)
          (.ocons "value" (.prim (.str "")) .onil)))))
      (.acons (.obj (.ocons "kind" (.prim (.str "group"))
          (.ocons "logic" (.prim (.str "AND"))
          (.ocons "group" (.obj (.ocons "logic" (.prim (.str "AND"))
            (.ocons "parts" (.arr .anil) .onil))) .onil))))
      .anil))) .onil))

/-- The document the component actually produces for the scenario: part
discriminants keyed `type`. -/
def scenarioDocTypeKey : JDoc :=
  .obj (.ocons "logic" (.prim (.str "AND"))
    (.ocons "parts" (.arr
      (.acons (.obj (.ocons "type" (.prim (.str "clause"))
          (.ocons "field" (.prim .undefined)
          (.ocons "operator" (.prim .undefined)
          (.ocons "value" (.prim (.str "")) .onil)))))
      (.acons (.obj (.ocons "type" (.prim (.str "group"))
          (.ocons "logic" (.prim (.str "AND"))
          (.ocons "group" (.obj (.ocons "logic" (.prim (.str "AND"))
            (.ocons "parts" (.arr .anil) .onil))) .onil))))
      .anil))) .onil))

/-- A sample well-formed tree: a root with a filled clause, a nested OR
group holding one clause, and a clause with a boolean value. -/
def sampleTree : Group :=
  .mk "g_r" .AND
    [ .clauseNode { id := "c_1", field := some "Title", operator := some "contains",
                    value := .str "x" },
      .groupNode (.mk "g_a" .OR
        [ .clauseNode { id := "c_2", field := none, operator := none, value := .str "" } ]),
      .clauseNode { id := "c_3", field := none, operator := none, value := .jsBool true } ]

/-- A well-formed tree with a clause, a nested group holding another
group, and a second direct child group. -/
def removalTree : Group :=
  .mk "g_r" .AND
    [ .clauseNode ⟨"c_1", none, none, .str ""⟩,
      .groupNode (.mk "g_a" .OR
        [ .groupNode (.mk "g_b" .AND [ .clauseNode ⟨"c_2", none, none, .str ""⟩ ]) ]),
      .groupNode (.mk "g_c" .AND []) ]

/-- The removal target: matches the nested group "g_b" by id alone. -/
def removalTarget : Group := .mk "g_b" .AND []

/-- A clause whose field was previously set to "Priority". -/
def priorityClause : Clause :=
  { id := "c_9", field := some "Priority", operator := none, value := .str "" }

/-- A clause with no field selected. -/
def fieldlessClause : Clause :=
  { id := "c_8", field := none, operator := none, value := .str "" }

/-- The "Priority" entry of the catalog. -/
def priorityField : Field :=
  { key := "Priority", label := "Priority", type := .number,
    operators := ["=", "!=", "<", ">"] }

theorem isPrefixOf_append_self (l t : List Char) : l.isPrefixOf (l ++ t) = true := by
  induction l with
  | nil => simp
  | cons a as ih => simp [List.isPrefixOf_cons₂, ih]

theorem strStartsWith_append_self (pre s : String) :
    strStartsWith (pre ++ s) pre = true := by
  simp [strStartsWith, isPrefixOf_append_self]

theorem strStartsWith_c_of_g (s : String) (h : strStartsWith s "g_" = true) :
    strStartsWith s "c_" = false := by
  unfold strStartsWith at h ⊢
  have hg : "g_".data = ['g', '_'] := rfl
  have hc : "c_".data = ['c', '_'] := rfl
  rw [hg] at h
  rw [hc]
  cases hd : s.data with
  | nil => rw [hd] at h; simp [List.isPrefixOf] at h
  | cons a as =>
    rw [hd] at h
    simp only [List.isPrefixOf_cons₂, Bool.and_eq_true, beq_iff_eq] at h
    obtain ⟨rfl, -⟩ := h
    simp [List.isPrefixOf_cons₂]

theorem strStartsWith_uid_c (r : String) : strStartsWith (uid "c_" r) "c_" = true :=
  strStartsWith_append_self "c_" r

theorem strStartsWith_uid_g_c (r : String) : strStartsWith (uid "g_" r) "c_" = false :=
  strStartsWith_c_of_g (uid "g_" r) (strStartsWith_append_self "g_" r)

theorem isClause_newClause_node (r : String) :
    isClause (.clauseNode (newClause r)) = true :=
  strStartsWith_uid_c r

theorem isClause_newGroup_node (r : String) :
    isClause (.groupNode (newGroup r)) = false :=
  strStartsWith_uid_g_c r

/-- C1 counterexample: on the spec's own scenario (root; addClause;
addGroup; serialize) the produced document is not the claimed one — the
part discriminant the component writes is keyed `type`, not `kind`. -/
theorem serialize_scenario_ne_kind_document :
    serializeGroup scenarioTree ≠ some scenarioDocKindKey := by
  have h : serializeGroup scenarioTree = some scenarioDocTypeKey := rfl
  rw [h]
  simp [scenarioDocTypeKey, scenarioDocKindKey]

/-- C1 (amended): for every draw of the three random id suffixes, the
scenario — addClause then addGroup on a fresh root, then serialize —
yields exactly { logic: "AND", parts: [ { type: "clause", field:
undefined, operator: undefined, value: "" }, { type: "group", logic:
"AND", group: { logic: "AND", parts: [] } } ] }, each part carrying a
`type` discriminant of "clause" or "group". -/
theorem serialize_scenario_type_document (r a b : String) :
    serializeGroup (addGroup (addClause (newGroup r) a) b) =
      some scenarioDocTypeKey := by
  simp [serializeGroup, serializeParts, serializeItem, addGroup, addClause, newGroup,
    Group.clauses, Group.id, Group.logic, isClause, idOf, strStartsWith_uid_c,
    strStartsWith_uid_g_c, newClause, fieldProp, operatorProp, valueProp, optVal,
    logicStr, scenarioDocTypeKey]

mutual
theorem serializeItemSt_fst (item : Node) : (serializeItemSt item).1 = item := by
  cases item with
  | clauseNode c =>
    unfold serializeItemSt
    split
    · rfl
    · rfl
  | groupNode g =>
    unfold serializeItemSt
    split
    · rfl
    · simp [serializeGroupSt_fst g]

theorem serializeGroupSt_fst (g : Group) : (serializeGroupSt g).1 = g := by
  cases g with
  | mk i l cs => simp [serializeGroupSt, serializePartsSt_fst cs]

theorem serializePartsSt_fst (ns : List Node) : (serializePartsSt ns).1 = ns := by
  cases ns with
  | nil => rfl
  | cons item rest =>
    simp [serializePartsSt, serializeItemSt_fst item, serializePartsSt_fst rest]
end

mutual
theorem serializeItemSt_snd (item : Node) :
    (serializeItemSt item).2 = serializeItem item := by
  cases item with
  | clauseNode c =>
    unfold serializeItemSt serializeItem
    split
    · rfl
    · rfl
  | groupNode g =>
    unfold serializeItemSt serializeItem
    split
    · rfl
    · simp [serializeGroupSt_snd g]

theorem serializeGroupSt_snd (g : Group) :
    (serializeGroupSt g).2 = serializeGroup g := by
  cases g with
  | mk i l cs => simp [serializeGroupSt, serializeGroup, serializePartsSt_snd cs]

theorem serializePartsSt_snd (ns : List Node) :
    (serializePartsSt ns).2 = serializeParts ns := by
  cases ns with
  | nil => rfl
  | cons item rest =>
    simp [serializePartsSt, serializeParts, serializeItemSt_snd item,
      serializePartsSt_snd rest]
end

/-- C3: serialization does not mutate its input — threaded through the
call as state, the tree comes back equal — so serializing the tree the
call hands back yields the same output again, and the state-passing
serializer computes exactly the pure one. -/
theorem serialize_is_pure (G : Group) :
    (serializeGroupSt G).1 = G ∧
    (serializeGroupSt ((serializeGroupSt G).1)).2 = (serializeGroupSt G).2 ∧
    (serializeGroupSt G).2 = serializeGroup G := by
  refine ⟨serializeGroupSt_fst G, ?_, serializeGroupSt_snd G⟩
  rw [serializeGroupSt_fst G]

theorem isClause_groupNode_false_of_wf (g : Group) (h : wfGroup g = true) :
    isClause (.groupNode g) = false := by
  cases g with
  | mk i l cs =>
    simp only [wfGroup, Bool.and_eq_true] at h
    exact strStartsWith_c_of_g i h.1

mutual
theorem serializeItem_wf (n : Node) (h : wfNode n = true) :
    ∃ d, serializeItem n = some d := by
  cases n with
  | clauseNode c =>
    refine Option.isSome_iff_exists.mp ?_
    unfold serializeItem
    simp [show isClause (.clauseNode c) = true from h]
  | groupNode g =>
    have hg : wfGroup g = true := h
    obtain ⟨d, hd⟩ := serializeGroup_wf g hg
    refine Option.isSome_iff_exists.mp ?_
    unfold serializeItem
    simp [isClause_groupNode_false_of_wf g hg, hd]

theorem serializeGroup_wf (g : Group) (h : wfGroup g = true) :
    ∃ d, serializeGroup g = some d := by
  cases g with
  | mk i l cs =>
    simp only [wfGroup, Bool.and_eq_true] at h
    obtain ⟨ps, hps, -, -⟩ := serializeParts_wf cs h.2
    refine Option.isSome_iff_exists.mp ?_
    simp [serializeGroup, hps]

theorem serializeParts_wf (ns : List Node) (h : wfList ns = true) :
    ∃ ps : JArr, serializeParts ns = some ps ∧
      ps.toList.length = ns.length ∧
      ∀ i : Nat, ps.toList[i]? = ns[i]?.bind serializeItem := by
  cases ns with
  | nil =>
    refine ⟨.anil, rfl, rfl, ?_⟩
    intro i
    cases i <;> simp [JArr.toList]
  | cons item rest =>
    simp only [wfList, Bool.and_eq_true] at h
    obtain ⟨d, hd⟩ := serializeItem_wf item h.1
    obtain ⟨ps, hps, hlen, hidx⟩ := serializeParts_wf rest h.2
    refine ⟨.acons d ps, ?_, ?_, ?_⟩
    · simp [serializeParts, hd, hps]
    · simp [JArr.toList, hlen]
    · intro i
      cases i with
      | zero => simp [JArr.toList, hd]
      | succ j => simpa [JArr.toList] using hidx j
end

/-- C2: for a well-formed Group, serialization succeeds, its `parts`
array is exactly as long as the children list, and the i-th part is the
serialization of the i-th child — order preserved; applied at every
nested Group since the statement quantifies over all of them. -/
theorem serialize_preserves_children_order (G : Group) (h : wfGroup G = true) :
    ∃ ps : JArr,
      serializeGroup G =
        some (.obj (.ocons "logic" (.prim (.str (logicStr G.logic)))
          (.ocons "parts" (.arr ps) .onil))) ∧
      ps.toList.length = G.clauses.length ∧
      ∀ i : Nat, ps.toList[i]? = G.clauses[i]?.bind serializeItem := by
  cases G with
  | mk i l cs =>
    have hcs : wfList cs = true := by
      simp only [wfGroup, Bool.and_eq_true] at h
      exact h.2
    obtain ⟨ps, hps, hlen, hidx⟩ := serializeParts_wf cs hcs
    exact ⟨ps, by simp [serializeGroup, Group.logic, hps], by simpa [Group.clauses] using hlen,
      by simpa [Group.clauses] using hidx⟩

/-- C2 witness: the sample tree is well-formed and its serialization has
three parts, one per child, in order. -/
theorem serialize_preserves_children_order_witness :
    wfGroup sampleTree = true ∧
    (∃ ps : JArr,
      serializeGroup sampleTree =
        some (.obj (.ocons "logic" (.prim (.str (logicStr sampleTree.logic)))
          (.ocons "parts" (.arr ps) .onil))) ∧
      ps.toList.length = sampleTree.clauses.length ∧
      ∀ i : Nat, ps.toList[i]? = sampleTree.clauses[i]?.bind serializeItem) :=
  ⟨by decide, serialize_preserves_children_order sampleTree (by decide)⟩

theorem removePred_eq_of_wf (tid : String) (n : Node) (h : wfNode n = true) :
    (!isClause n && idOf n == tid) = (isGroupNode n && idOf n == tid) := by
  cases n with
  | clauseNode c =>
    have hc : isClause (.clauseNode c) = true := h
    simp [hc, isGroupNode]
  | groupNode g =>
    simp [isClause_groupNode_false_of_wf g h, isGroupNode]

theorem findIdx?_congr_from {α : Type} (p q : α → Bool) (l : List α)
    (h : ∀ x ∈ l, p x = q x) : ∀ i, l.findIdx? p i = l.findIdx? q i := by
  induction l with
  | nil => intro i; rfl
  | cons a as ih =>
    intro i
    simp only [List.findIdx?_cons]
    rw [h a (List.mem_cons_self a as)]
    cases hq : q a
    · simp only [cond_false, if_neg, Bool.false_eq_true, not_false_iff]
      exact ih (fun x hx => h x (List.mem_cons_of_mem a hx)) (i + 1)
    · rfl

theorem findIdx?_congr {α : Type} (p q : α → Bool) (l : List α)
    (h : ∀ x ∈ l, p x = q x) : l.findIdx? p = l.findIdx? q :=
  findIdx?_congr_from p q l h 0

theorem exists_of_findIdx?_eq_some {α : Type} {p : α → Bool} {l : List α} :
    ∀ {j i : Nat}, l.findIdx? p j = some i → ∃ x ∈ l, p x = true := by
  induction l with
  | nil => intro j i h; simp at h
  | cons a as ih =>
    intro j i h
    simp only [List.findIdx?_cons] at h
    by_cases hpa : p a = true
    · exact ⟨a, List.mem_cons_self a as, hpa⟩
    · rw [if_neg hpa] at h
      obtain ⟨x, hx, hpx⟩ := ih h
      exact ⟨x, List.mem_cons_of_mem a hx, hpx⟩

theorem wfList_mem {ns : List Node} (h : wfList ns = true) {x : Node}
    (hx : x ∈ ns) : wfNode x = true := by
  induction ns with
  | nil => cases hx
  | cons a as ih =>
    simp only [wfList, Bool.and_eq_true] at h
    rcases List.mem_cons.mp hx with rfl | h2
    · exact h.1
    · exact ih h.2 h2

mutual
theorem gidsNode_subset_idsNode (n : Node) : ∀ x ∈ gidsNode n, x ∈ idsNode n := by
  cases n with
  | clauseNode c => intro x hx; simp [gidsNode] at hx
  | groupNode g =>
    intro x hx
    exact gidsGroup_subset_allIds g x hx

theorem gidsGroup_subset_allIds (g : Group) : ∀ x ∈ gidsGroup g, x ∈ allIds g := by
  cases g with
  | mk i l cs =>
    intro x hx
    simp only [gidsGroup, List.mem_cons] at hx
    simp only [allIds, List.mem_cons]
    rcases hx with rfl | hx2
    · exact Or.inl rfl
    · exact Or.inr (gidsList_subset_idsList cs x hx2)

theorem gidsList_subset_idsList (ns : List Node) : ∀ x ∈ gidsList ns, x ∈ idsList ns := by
  cases ns with
  | nil => intro x hx; simp [gidsList] at hx
  | cons a as =>
    intro x hx
    simp only [gidsList, List.mem_append] at hx
    simp only [idsList, List.mem_append]
    rcases hx with hx1 | hx2
    · exact Or.inl (gidsNode_subset_idsNode a x hx1)
    · exact Or.inr (gidsList_subset_idsList as x hx2)
end

theorem mem_gidsList_of_mem {x : Node} {ns : List Node} (hx : x ∈ ns) {y : String}
    (hy : y ∈ gidsNode x) : y ∈ gidsList ns := by
  induction ns with
  | nil => cases hx
  | cons a as ih =>
    simp only [gidsList, List.mem_append]
    rcases List.mem_cons.mp hx with rfl | h2
    · exact Or.inl hy
    · exact Or.inr (ih h2)

theorem mem_gidsGroup_of_clauses (g : Group) {y : String}
    (h : y ∈ gidsList g.clauses) : y ∈ gidsGroup g := by
  cases g with
  | mk i l cs =>
    simp only [gidsGroup, List.mem_cons]
    exact Or.inr h

mutual
theorem removeFirst_found_mem (tid : String) (g : Group)
    (h : (removeFirst tid g).2 = true) : tid ∈ gidsList g.clauses := by
  cases g with
  | mk i l cs =>
    show tid ∈ gidsList cs
    unfold removeFirst at h
    cases hf : cs.findIdx? (fun c => isGroupNode c && idOf c == tid) with
    | some idx =>
      obtain ⟨x, hx, hpx⟩ := exists_of_findIdx?_eq_some hf
      simp only [Bool.and_eq_true, beq_iff_eq] at hpx
      cases x with
      | clauseNode c => simp [isGroupNode] at hpx
      | groupNode g2 =>
        refine mem_gidsList_of_mem hx ?_
        cases g2 with
        | mk i2 l2 cs2 =>
          have : i2 = tid := hpx.2
          subst this
          simp [gidsNode, gidsGroup, idOf, Group.id] at hpx ⊢
    | none =>
      rw [hf] at h
      exact removeFirstList_found_mem tid cs h

theorem removeFirstList_found_mem (tid : String) (ns : List Node)
    (h : (removeFirstList tid ns).2 = true) : tid ∈ gidsList ns := by
  cases ns with
  | nil => simp [removeFirstList] at h
  | cons item rest =>
    cases item with
    | clauseNode c =>
      have h2 : (removeFirstList tid rest).2 = true := h
      have := removeFirstList_found_mem tid rest h2
      simp only [gidsList, gidsNode, List.nil_append]
      exact this
    | groupNode g2 =>
      unfold removeFirstList at h
      simp only [gidsList, List.mem_append]
      cases hr : (removeFirst tid g2).2 with
      | true =>
        have hmem := removeFirst_found_mem tid g2 hr
        exact Or.inl (mem_gidsGroup_of_clauses g2 hmem)
      | false =>
        simp only [hr, Bool.false_eq_true, if_false] at h
        exact Or.inr (removeFirstList_found_mem tid rest h)
end

mutual
theorem removeGroup_noop (t : Group) (g : Group) (hwf : wfGroup g = true)
    (h : t.id ∉ gidsList g.clauses) : removeGroup t g = some g := by
  cases g with
  | mk i l cs =>
    have hcs : wfList cs = true := by
      simp only [wfGroup, Bool.and_eq_true] at hwf
      exact hwf.2
    have hmem : t.id ∉ gidsList cs := h
    have hfind : cs.findIdx? (fun c => !isClause c && idOf c == t.id) = none := by
      apply List.findIdx?_eq_none_iff.mpr
      intro x hx
      rw [removePred_eq_of_wf t.id x (wfList_mem hcs hx)]
      cases x with
      | clauseNode c => simp [isGroupNode]
      | groupNode g2 =>
        simp only [isGroupNode, Bool.true_and, beq_eq_false_iff_ne, ne_eq]
        intro heq
        apply hmem
        refine mem_gidsList_of_mem hx ?_
        cases g2 with
        | mk i2 l2 cs2 =>
          have : i2 = t.id := heq
          subst this
          simp [gidsNode, gidsGroup, idOf, Group.id]
    unfold removeGroup
    rw [hfind]
    have hlist := removeGroupList_noop t cs hcs hmem
    simp [hlist]

theorem removeGroupList_noop (t : Group) (ns : List Node) (hwf : wfList ns = true)
    (h : t.id ∉ gidsList ns) : removeGroupList t ns = some ns := by
  cases ns with
  | nil => rfl
  | cons item rest =>
    simp only [wfList, Bool.and_eq_true] at hwf
    have hrest : t.id ∉ gidsList rest := by
      intro hmem
      exact h (by simp only [gidsList, List.mem_append]; exact Or.inr hmem)
    cases item with
    | clauseNode c =>
      have hc : isClause (.clauseNode c) = true := hwf.1
      unfold removeGroupList
      rw [if_pos hc]
      rw [removeGroupList_noop t rest hwf.2 hrest]
      rfl
    | groupNode g2 =>
      have hg2 : t.id ∉ gidsList g2.clauses := by
        intro hmem
        exact h (by
          simp only [gidsList, List.mem_append]
          exact Or.inl (mem_gidsGroup_of_clauses g2 hmem))
      have hc : isClause (.groupNode g2) = false := isClause_groupNode_false_of_wf g2 hwf.1
      unfold removeGroupList
      rw [if_neg (by simp [hc])]
      rw [removeGroup_noop t g2 hwf.1 hg2, removeGroupList_noop t rest hwf.2 hrest]
      rfl
end

mutual
theorem removeGroup_eq_removeFirst_go (t : Group) (g : Group) (hwf : wfGroup g = true)
    (hids : (allIds g).Nodup) : removeGroup t g = some (removeFirst t.id g).1 := by
  cases g with
  | mk i l cs =>
    have hcs : wfList cs = true := by
      simp only [wfGroup, Bool.and_eq_true] at hwf
      exact hwf.2
    have hidcs : (idsList cs).Nodup := by
      simp only [allIds] at hids
      exact hids.of_cons
    have hcong : cs.findIdx? (fun c => !isClause c && idOf c == t.id) =
        cs.findIdx? (fun c => isGroupNode c && idOf c == t.id) :=
      findIdx?_congr _ _ cs (fun x hx => removePred_eq_of_wf t.id x (wfList_mem hcs hx))
    unfold removeGroup removeFirst
    rw [hcong]
    cases hf : cs.findIdx? (fun c => isGroupNode c && idOf c == t.id) with
    | some idx => rfl
    | none =>
      rw [removeGroupList_eq_removeFirstList_go t cs hcs hidcs]
      rfl

theorem removeGroupList_eq_removeFirstList_go (t : Group) (ns : List Node)
    (hwf : wfList ns = true) (hids : (idsList ns).Nodup) :
    removeGroupList t ns = some (removeFirstList t.id ns).1 := by
  cases ns with
  | nil => rfl
  | cons item rest =>
    simp only [wfList, Bool.and_eq_true] at hwf
    have hidrest : (idsList rest).Nodup := by
      simp only [idsList] at hids
      exact hids.of_append_right
    cases item with
    | clauseNode c =>
      have hc : isClause (.clauseNode c) = true := hwf.1
      unfold removeGroupList removeFirstList
      rw [if_pos hc]
      rw [removeGroupList_eq_removeFirstList_go t rest hwf.2 hidrest]
      rfl
    | groupNode g2 =>
      have hc : isClause (.groupNode g2) = false := isClause_groupNode_false_of_wf g2 hwf.1
      have hg2 := removeGroup_eq_removeFirst_go t g2 hwf.1 (by
        simp only [idsList, idsNode] at hids
        exact hids.of_append_left)
      unfold removeGroupList removeFirstList
      rw [if_neg (by simp [hc])]
      cases hr : (removeFirst t.id g2).2 with
      | true =>
        have hfound := removeFirst_found_mem t.id g2 hr
        have hdisj : (allIds g2).Disjoint (idsList rest) := by
          simp only [idsList, idsNode] at hids
          exact (List.nodup_append.mp hids).2.2
        have hnotin : t.id ∉ gidsList rest := by
          intro hmem
          exact hdisj
            (gidsGroup_subset_allIds g2 t.id (mem_gidsGroup_of_clauses g2 hfound))
            (gidsList_subset_idsList rest t.id hmem)
        rw [hg2, removeGroupList_noop t rest hwf.2 hnotin]
        simp [hr]
      | false =>
        rw [hg2, removeGroupList_eq_removeFirstList_go t rest hwf.2 hidrest]
        simp [hr]
end

/-- C4: on a well-formed tree (ids unique and carrying their factory
variant tag), `removeGroup` computes exactly the spec's stop-at-first-
match removal: the first child Group whose id equals the target's id, in
the depth-first order that scans a group's direct children before
descending into nested groups, is spliced out, and nothing else changes. -/
theorem removeGroup_removes_first_dfs_match (targetGroup searchRoot : Group)
    (hwf : wfGroup searchRoot = true) (hids : (allIds searchRoot).Nodup) :
    removeGroup targetGroup searchRoot =
      some (removeFirst targetGroup.id searchRoot).1 :=
  removeGroup_eq_removeFirst_go targetGroup searchRoot hwf hids

/-- C4 witness: on the sample tree, removing the group with id "g_b"
removes exactly that nested group — with its subtree — and nothing else. -/
theorem removeGroup_removes_first_dfs_match_witness :
    wfGroup removalTree = true ∧ (allIds removalTree).Nodup ∧
    removeGroup removalTarget removalTree =
      some (removeFirst removalTarget.id removalTree).1 ∧
    removeGroup removalTarget removalTree =
      some (.mk "g_r" .AND
        [ .clauseNode ⟨"c_1", none, none, .str ""⟩,
          .groupNode (.mk "g_a" .OR []),
          .groupNode (.mk "g_c" .AND []) ]) :=
  ⟨by decide, by decide,
    removeGroup_removes_first_dfs_match removalTarget removalTree (by decide) (by decide),
    by rfl⟩

/-- C5: calling `removeGroup` with the tree's root itself as the target
leaves the whole tree unchanged — the search only ever matches children,
and on a well-formed tree no child carries the root's id, so the root
survives and nothing is removed. -/
theorem removeGroup_root_survives (G : Group) (hwf : wfGroup G = true)
    (hids : (allIds G).Nodup) : removeGroup G G = some G := by
  cases G with
  | mk i l cs =>
    apply removeGroup_noop
    · exact hwf
    · intro hmem
      have h1 : i ∈ idsList cs := gidsList_subset_idsList cs i hmem
      have h2 : (i :: idsList cs).Nodup := hids
      exact (List.nodup_cons.mp h2).1 h1

/-- C5 witness: removing the sample tree's root from itself is a no-op. -/
theorem removeGroup_root_survives_witness :
    wfGroup removalTree = true ∧ (allIds removalTree).Nodup ∧
    removeGroup removalTree removalTree = some removalTree :=
  ⟨by decide, by decide, removeGroup_root_survives removalTree (by decide) (by decide)⟩

/-- C6: the field select writes the new key and `onFieldChange`
unconditionally resets operator to undefined and value to the empty
string, whatever was set before. -/
theorem setClauseField_resets_operator_value (c : Clause) (k : Option String) :
    (setClauseField c k).field = k ∧
    (setClauseField c k).operator = none ∧
    (setClauseField c k).value = .str "" :=
  ⟨rfl, rfl, rfl⟩

/-- C7: with no field set or an unknown field key, the operator list is
empty and the value input type defaults to 'string' (the spec's "text"
type); with a catalog field set, the lookup returns exactly that field's
ordered operator list and its type. -/
theorem operators_and_value_kind (c : Clause) :
    ((∀ f ∈ fields, some f.key ≠ c.field) →
      operatorsForClause c = [] ∧ valueInputType c = .string) ∧
    (∀ f ∈ fields, c.field = some f.key →
      operatorsForClause c = f.operators ∧ valueInputType c = f.type) := by
  constructor
  · intro hnone
    have hfind : fields.find? (fun x => some x.key == c.field) = none := by
      apply List.find?_eq_none.mpr
      intro f hf
      simpa using hnone f hf
    simp [operatorsForClause, valueInputType, hfind]
  · intro f hf hkey
    have hfields : f ∈ DEFAULT_FIELDS := hf
    simp only [DEFAULT_FIELDS, List.mem_cons, List.not_mem_nil, or_false] at hfields
    rcases hfields with rfl | rfl | rfl | rfl | rfl | rfl <;>
      simp [operatorsForClause, valueInputType, fields, DEFAULT_FIELDS, hkey]

/-- C7 witness: a clause on field "Priority" gets that field's four
operators and the 'number' input type; a clause with no field gets no
operators and the 'string' default. -/
theorem operators_and_value_kind_witness :
    operatorsForClause priorityClause = ["=", "!=", "<", ">"] ∧
    valueInputType priorityClause = .number ∧
    operatorsForClause fieldlessClause = [] ∧
    valueInputType fieldlessClause = .string := by
  have h1 := (operators_and_value_kind priorityClause).2 priorityField (by decide) rfl
  have h2 := (operators_and_value_kind fieldlessClause).1 (by decide)
  exact ⟨h1.1, h1.2, h2.1, h2.2⟩

/-- C8: `isClause` classifies every factory-made node correctly from its
id alone, whatever random suffix was drawn: clause ids get the stable
tag 'c_', group ids the tag 'g_'. -/
theorem isClause_agrees_with_factory (r1 r2 : String) :
    isClause (.clauseNode (newClause r1)) = true ∧
    isClause (.groupNode (newGroup r2)) = false :=
  ⟨isClause_newClause_node r1, isClause_newGroup_node r2⟩

/-- C9: appending a clause and then removing at the old length is the
identity on the group — every previous child is untouched, in place. -/
theorem addClause_removeClause_inverse (g : Group) (r : String) :
    removeClause (addClause g r) g.clauses.length = g := by
  cases g with
  | mk i l cs =>
    simp only [addClause, removeClause, Group.clauses, Group.id, Group.logic]
    rw [List.eraseIdx_append_of_length_le (Nat.le_refl cs.length)]
    simp

/-- C10: after construction, and after every `clear()`, the root is an
AND group holding exactly one fresh clause (no field, no operator, empty
value) — the tree is never presented with an empty root. -/
theorem constructor_and_clear_seed_one_clause (grand crand : String) (old : Group) :
    constructorRoot grand crand = clear old grand crand ∧
    (constructorRoot grand crand).logic = .AND ∧
    (constructorRoot grand crand).clauses =
      [.clauseNode { id := uid "c_" crand, field := none, operator := none,
                     value := .str "" }] :=
  ⟨rfl, rfl, rfl⟩

end QueryBuilder
